import Mathlib

/-!
Verification of the `bootstrap` package: a process lifecycle orchestrator.

The Go source is shallowly embedded as follows.

* Go `error` values become `GoError` (`none : Option GoError` is Go `nil`).
  `errors.WithMessagef` becomes `GoError.withMessage`; the sentinel
  `context.Canceled` becomes `GoError.canceled`; `errors.Is(err,
  context.Canceled)` becomes `GoError.isCanceled` (it unwraps message
  wrappers, exactly as `errors.Is` walks the cause chain).
* A `runner.Runner` is abstracted by its name together with the results its
  `Run` and `Stop` methods return in the execution under study
  (`RunnerSpec`).  The two lifecycle hooks are abstracted likewise: `none`
  is a nil hook, `some res` is a hook present and returning `res`.
* `bootstrap.Run` spawns goroutines in an `errgroup`.  We model the
  concurrent phase as a small-step machine: `St` is the global state, and
  `step` fires one atomic action of one thread, chosen by an external
  schedule (a `List Nat` of thread identifiers).  Theorems about orderings
  quantify over every schedule, so they hold for every interleaving.
* The `errgroup` keeps the first non-nil error submitted (`submit`); its
  derived context is cancelled once an error is submitted or the parent
  context is cancelled externally (flag `ec`).  The shutdown controller is
  an external collaborator: its `Wait` blocks until the scope is cancelled
  or an external trigger fires, and the value it then returns is the
  environment parameter `wr`.
* Observable actions (log lines, callback registrations, task spawns,
  `WaitGroup` signals, hook and runner invocations) are recorded in a
  trace of `Event`s, chronologically ordered.
-/

/-- Go error values, as needed by the bootstrap package: the
`context.Canceled` sentinel, opaque base errors, and
`errors.WithMessagef` wrappers. -/
inductive GoError where
  | canceled : GoError
  | base : String → GoError
  | withMessage : String → GoError → GoError
deriving DecidableEq, Repr

/-- `errors.Is(err, context.Canceled)`: walks the wrap chain. -/
def GoError.isCanceled : GoError → Bool
  | canceled => true
  | base _ => false
  | withMessage _ e => e.isCanceled

/-- A `runner.Runner` abstracted to its name and the results its `Run`
and `Stop` methods return in the execution under study. -/
structure RunnerSpec where
  name : String
  runResult : Option GoError
  stopResult : Option GoError
deriving DecidableEq, Repr

/-- A `shutdown.Controller` value, abstracted to its configuration
identity (whether it is the graceful implementation, its timeout in
seconds, and an identity tag to tell instances apart). -/
structure ShutdownController where
  graceful : Bool
  timeoutSeconds : Nat
  id : Nat
deriving DecidableEq, Repr

/-- The `bootstrap` struct.  `gs` has Go interface type
`shutdown.Controller`, whose zero value is nil, hence the `Option`. -/
structure bootstrap where
  beforeRun : Option (Option GoError) := none
  onRun : Option (Option GoError) := none
  runners : List RunnerSpec := []
  gs : Option ShutdownController := none
deriving DecidableEq, Repr

/-- Go type `Option func(b *bootstrap)` (a configuration function). -/
def Opt : Type := bootstrap → bootstrap

/-- `WithShutdown`: overwrite the controller, unless the argument is nil. -/
def WithShutdown (gsArg : Option ShutdownController) : Opt := fun b =>
  match gsArg with
  | none => b
  | some c => { b with gs := some c }

/-- `WithBeforeRun`: set the pre-start hook (no nil check). -/
def WithBeforeRun (before : Option (Option GoError)) : Opt := fun b =>
  { b with beforeRun := before }

/-- `WithOnRun`: set the post-start hook (no nil check). -/
def WithOnRun (fn : Option (Option GoError)) : Opt := fun b =>
  { b with onRun := fn }

/-- `WithRunners`: append runners to the existing list. -/
def WithRunners (rs : List RunnerSpec) : Opt := fun b =>
  { b with runners := b.runners ++ rs }

/-- The default controller `New` installs:
`shutdown.NewGraceful(shutdown.WithTimeout(time.Second), ...)`. -/
def defaultController : ShutdownController :=
  { graceful := true, timeoutSeconds := 1, id := 0 }

/-- `New`: start from a bootstrap holding the default graceful controller,
then apply the configuration functions in order. -/
def New (opts : List Opt) : bootstrap :=
  opts.foldl (fun b opt => opt b) { gs := some defaultController }

/-- The configuration functions this package exports, as data, so that
theorems can quantify over every sequence of exported options. -/
inductive OptionSpec where
  | shutdown : Option ShutdownController → OptionSpec
  | beforeRun : Option (Option GoError) → OptionSpec
  | onRun : Option (Option GoError) → OptionSpec
  | runners : List RunnerSpec → OptionSpec

/-- Interpret an exported configuration function. -/
def OptionSpec.apply : OptionSpec → Opt
  | .shutdown c => WithShutdown c
  | .beforeRun f => WithBeforeRun f
  | .onRun f => WithOnRun f
  | .runners rs => WithRunners rs

/-- Observable events of one `Run` invocation (plus, separately, of one
shutdown-callback invocation), in chronological trace order. -/
inductive Event where
  | logError : String → Event
  | logInfo : String → Event
  | beforeRunCalled : Event
  | callbackRegistered : Nat → Event
  | startTaskSpawned : Nat → Event
  | startSignal : Nat → Event
  | runnerRunCalled : Nat → Event
  | onRunTaskSpawned : Event
  | onRunCalled : Event
  | gsWaitCalled : Event
deriving DecidableEq, Repr

/-- The shutdown callback `Run` registers for runner `r` (the
`shutdown.CallbackFunc` closure): log, call `r.Stop`, wrap a failure with
"stopping <name> failed".  Returns the callback's result and the log lines
it emits.  Its result goes to the controller's error handler, not to the
errgroup. -/
def shutdownCallback (ie : Bool) (r : RunnerSpec) (reason : String) :
    Option GoError × List Event :=
  let l1 : List Event :=
    if ie then [.logInfo ("Stopping runner: " ++ r.name ++ ", cause: " ++ reason)] else []
  match r.stopResult with
  | some e => (some (.withMessage ("stopping " ++ r.name ++ " failed") e), l1)
  | none => (none, l1 ++ if ie then [.logInfo ("Runner stoped: " ++ r.name)] else [])

/-- Wrapping performed in a runner's start task:
`errors.WithMessagef(err, "starting %s failed", r.Name())`. -/
def wrapRun (name : String) : Option GoError → Option GoError
  | none => none
  | some e => some (.withMessage ("starting " ++ name ++ " failed") e)

/-- The result of the post-start task: if a post-start hook is set and
fails, wrap the failure with "onRun err"; otherwise nil. -/
def onRunResult (b : bootstrap) : Option GoError :=
  match b.onRun with
  | none => none
  | some none => none
  | some (some e) => some (.withMessage "onRun err" e)

/-- `errgroup` error slot: the first non-nil submitted result is kept. -/
def submit (egErr : Option GoError) (res : Option GoError) : Option GoError :=
  match egErr with
  | some e => some e
  | none => res

/-- The final lines of `Run`: take the errgroup result; if non-nil and not
a cancellation, wrap it with "bootstrap run err", else return nil. -/
def finish (egErr : Option GoError) : Option GoError :=
  match egErr with
  | none => none
  | some e => if e.isCanceled then none else some (.withMessage "bootstrap run err" e)

/-- Stage of one runner's start task. -/
inductive RStage where
  | notSpawned | atLog | atSig | atRun | finished
deriving DecidableEq, Repr

/-- Program counter of the spawning (main) thread of `Run` inside the
concurrent phase: about to register callback `i`, about to spawn start
task `i`, blocked on the start barrier, about to spawn the post-start
task, blocked in `eg.Wait`, or returned. -/
inductive MainPC where
  | mReg : Nat → MainPC
  | mSpawn : Nat → MainPC
  | mBarrier : MainPC
  | mAfter : MainPC
  | mEgWait : MainPC
  | mDone : MainPC
deriving DecidableEq, Repr

/-- Global state of one `Run` invocation. -/
structure St where
  pc : MainPC
  stages : Nat → RStage
  waitDone : Bool
  onRunDone : Bool
  egErr : Option GoError
  trace : List Event
  ret : Option (Option GoError)

/-- Name of runner `i` (empty if out of range). -/
def nameOf (b : bootstrap) (i : Nat) : String :=
  ((b.runners.get? i).map RunnerSpec.name).getD ""

/-- Result of runner `i`'s `Run` method (nil if out of range). -/
def runResOf (b : bootstrap) (i : Nat) : Option GoError :=
  ((b.runners.get? i).map RunnerSpec.runResult).getD none

/-- Has this runner's start task signaled the start barrier yet? -/
def sigPassed : RStage → Bool
  | .atRun => true
  | .finished => true
  | _ => false

/-- `waitStart.Wait()` is unblocked: every runner has signaled. -/
def allSignaled (n : Nat) (st : Nat → RStage) : Bool :=
  (List.range n).all fun i => sigPassed (st i)

/-- Every runner's start task has returned. -/
def allFinished (n : Nat) (st : Nat → RStage) : Bool :=
  (List.range n).all fun i => st i = RStage.finished

/-- One atomic action of the main thread of `Run`. -/
def mainStep (b : bootstrap) (ie : Bool) (s : St) : St :=
  let n := b.runners.length
  match s.pc with
  | .mReg i =>
      if i < n then
        { s with pc := .mSpawn i, trace := s.trace ++ [.callbackRegistered i] }
      else
        { s with pc := .mBarrier }
  | .mSpawn i =>
      { s with pc := .mReg (i + 1),
               stages := fun j => if j = i then .atLog else s.stages j,
               trace := s.trace ++ [.startTaskSpawned i] }
  | .mBarrier =>
      if allSignaled n s.stages then { s with pc := .mAfter } else s
  | .mAfter =>
      { s with pc := .mEgWait,
               trace := s.trace ++ (if ie then [.logInfo "bootstrap started."] else [])
                        ++ [.onRunTaskSpawned] }
  | .mEgWait =>
      if s.waitDone ∧ s.onRunDone ∧ allFinished n s.stages = true then
        { s with pc := .mDone, ret := some (finish s.egErr) }
      else s
  | .mDone => s

/-- One atomic action of the shutdown-wait task (`b.gs.Wait(egCtx)`).  It
may only return once the shared scope is cancelled — externally (`ec`) or
because some task already submitted an error — and then returns `wr`. -/
def waitStep (wr : Option GoError) (ec : Bool) (s : St) : St :=
  if s.waitDone = false ∧ (ec = true ∨ s.egErr.isSome = true) then
    { s with waitDone := true, egErr := submit s.egErr wr,
             trace := s.trace ++ [.gsWaitCalled] }
  else s

/-- One atomic action of the post-start task (enabled once spawned). -/
def onRunStep (b : bootstrap) (s : St) : St :=
  if (s.pc = .mEgWait ∨ s.pc = .mDone) ∧ s.onRunDone = false then
    { s with onRunDone := true, egErr := submit s.egErr (onRunResult b),
             trace := s.trace ++ (if b.onRun.isSome then [.onRunCalled] else []) }
  else s

/-- One atomic action of runner `i`'s start task: log "Starting runner",
signal the start barrier (`waitStart.Done()`), then call `r.Run(egCtx)`
and submit its (possibly wrapped) result. -/
def runnerStep (b : bootstrap) (ie : Bool) (s : St) (i : Nat) : St :=
  match s.stages i with
  | .notSpawned => s
  | .atLog =>
      { s with stages := fun j => if j = i then .atSig else s.stages j,
               trace := s.trace ++
                 (if ie then [.logInfo ("Starting runner: " ++ nameOf b i)] else []) }
  | .atSig =>
      { s with stages := fun j => if j = i then .atRun else s.stages j,
               trace := s.trace ++ [.startSignal i] }
  | .atRun =>
      { s with stages := fun j => if j = i then .finished else s.stages j,
               egErr := submit s.egErr (wrapRun (nameOf b i) (runResOf b i)),
               trace := s.trace ++ [.runnerRunCalled i] }
  | .finished => s

/-- One scheduler-chosen atomic action: choice 0 is the main thread, 1 the
shutdown-wait task, 2 the post-start task, and 3 + i runner i's task. -/
def step (b : bootstrap) (wr : Option GoError) (ec ie : Bool) (s : St) (c : Nat) : St :=
  match c with
  | 0 => mainStep b ie s
  | 1 => waitStep wr ec s
  | 2 => onRunStep b s
  | i + 3 => runnerStep b ie s i

/-- Run the machine under a schedule. -/
def runSched (b : bootstrap) (wr : Option GoError) (ec ie : Bool) :
    List Nat → St → St
  | [], s => s
  | c :: cs, s => runSched b wr ec ie cs (step b wr ec ie s c)

/-- Initial state of the concurrent phase: main thread about to register
runner 0's callback, the shutdown-wait task already spawned, trace holding
the pre-start hook call when one is set. -/
def initSt (b : bootstrap) : St :=
  { pc := .mReg 0, stages := fun _ => .notSpawned, waitDone := false,
    onRunDone := false, egErr := none,
    trace := if b.beforeRun.isSome then [.beforeRunCalled] else [],
    ret := none }

/-- `bootstrap.Run`, whole: the empty-runner early return, the pre-start
hook gate, then the concurrent phase under schedule `sched`.  `wr` is
what the controller's `Wait` returns, `ec` whether the input context is
externally cancelled, `ie` whether info-level logging is enabled.  The
`ret` field of the final state is `Run`'s return value (`some r` once it
has returned). -/
def RunExec (b : bootstrap) (wr : Option GoError) (ec ie : Bool)
    (sched : List Nat) : St :=
  if b.runners.isEmpty then
    { pc := .mDone, stages := fun _ => .notSpawned, waitDone := false,
      onRunDone := false, egErr := none,
      trace := [.logError "no runners, abort."], ret := some none }
  else
    match b.beforeRun with
    | some (some e) =>
        { pc := .mDone, stages := fun _ => .notSpawned, waitDone := false,
          onRunDone := false, egErr := none,
          trace := [.beforeRunCalled], ret := some (some e) }
    | _ => runSched b wr ec ie sched (initSt b)

/-- An example runner that blocks until cancellation and stops cleanly. -/
def exRunnerOk : RunnerSpec :=
  { name := "r0", runResult := none, stopResult := none }

/-- An example runner whose `Run` fails immediately. -/
def exRunnerFail : RunnerSpec :=
  { name := "r0", runResult := some (.base "boom"), stopResult := none }

/-- An example runner whose `Stop` fails. -/
def exRunnerStopFail : RunnerSpec :=
  { name := "r0", runResult := none, stopResult := some (.base "stopboom") }

/-- Example orchestrator: one clean runner, both hooks set and succeeding. -/
def exBootOk : bootstrap :=
  { beforeRun := some none, onRun := some none, runners := [exRunnerOk],
    gs := some defaultController }

/-- Example orchestrator whose runner's `Run` fails. -/
def exBootRunFail : bootstrap :=
  { beforeRun := some none, onRun := some none, runners := [exRunnerFail],
    gs := some defaultController }

/-- Example orchestrator whose post-start hook fails. -/
def exBootHookFail : bootstrap :=
  { beforeRun := some none, onRun := some (some (.base "hookfail")),
    runners := [exRunnerOk], gs := some defaultController }

/-- Example orchestrator whose pre-start hook fails. -/
def exBootPreFail : bootstrap :=
  { beforeRun := some (some (.base "prefail")), onRun := none,
    runners := [exRunnerOk], gs := some defaultController }

/-- Example orchestrator whose runner's `Stop` fails. -/
def exBootStopFail : bootstrap :=
  { beforeRun := some none, onRun := some none, runners := [exRunnerStopFail],
    gs := some defaultController }

/-- Example orchestrator with no runners and no hooks. -/
def exBootEmpty : bootstrap := {}

/-- Example orchestrator with no runners but a pre-start hook set. -/
def exBootEmptyHook : bootstrap := { beforeRun := some none }

/-- A complete schedule for the one-runner examples in which the
shutdown-wait task returns after the runner's start task has finished. -/
def exSched : List Nat := [0, 0, 0, 3, 3, 0, 0, 3, 1, 2, 0]

/-- A complete schedule in which the post-start task submits its result
before the shutdown-wait task returns. -/
def exSchedHook : List Nat := [0, 0, 0, 3, 3, 0, 0, 3, 2, 1, 0]

/-! ### Trace predicates and counting helpers -/

/-- Number of occurrences of an event in a trace. -/
def cnt (e : Event) : List Event → Nat
  | [] => 0
  | x :: xs => (if x = e then 1 else 0) + cnt e xs

theorem cnt_append (e : Event) (l1 l2 : List Event) :
    cnt e (l1 ++ l2) = cnt e l1 + cnt e l2 := by
  induction l1 with
  | nil => simp [cnt]
  | cons x xs ih => simp [cnt, ih]; omega

theorem cnt_singleton (e x : Event) :
    cnt e [x] = if x = e then 1 else 0 := by
  simp [cnt]

theorem cnt_pos_mem (e : Event) (l : List Event) (h : 0 < cnt e l) : e ∈ l := by
  induction l with
  | nil => simp [cnt] at h
  | cons x xs ih =>
      by_cases hx : x = e
      · subst hx; exact List.mem_cons_self x xs
      · simp [cnt, hx] at h
        exact List.mem_cons_of_mem _ (ih h)

/-- Every occurrence of `x` in the trace is preceded by an `a`. -/
def Prec (tr : List Event) (a x : Event) : Prop :=
  ∀ l1 l2, tr = l1 ++ x :: l2 → a ∈ l1

/-- Every occurrence of `x` in the trace is preceded by exactly one `e`. -/
def Pfx1 (tr : List Event) (x e : Event) : Prop :=
  ∀ l1 l2, tr = l1 ++ x :: l2 → cnt e l1 = 1

/-- Splitting a snoc: a decomposition of `tr ++ [e]` around a cell either
lies inside `tr`, or the cell is the appended `e` itself. -/
theorem split_snoc {α} {tr l1 l2 : List α} {x e : α}
    (h : tr ++ [e] = l1 ++ x :: l2) :
    (∃ l3, tr = l1 ++ x :: l3 ∧ l2 = l3 ++ [e]) ∨ (l1 = tr ∧ x = e ∧ l2 = []) := by
  rcases List.eq_nil_or_concat l2 with rfl | ⟨l3, y, rfl⟩
  · right
    have hlen : tr.length = l1.length := by
      have hl := congrArg List.length h
      simp at hl
      omega
    obtain ⟨h1, h2⟩ := List.append_inj h (by simpa using hlen)
    simp at h2
    exact ⟨h1.symm, h2.symm, rfl⟩
  · left
    have h' : tr ++ [e] = (l1 ++ x :: l3) ++ [y] := by
      simpa [List.concat_eq_append, List.append_assoc] using h
    have hlen : tr.length = (l1 ++ x :: l3).length := by
      have hl := congrArg List.length h'
      simp at hl
      simp
      omega
    obtain ⟨h1, h2⟩ := List.append_inj h' (by simpa using hlen)
    simp at h2
    exact ⟨l3, h1, by simp [List.concat_eq_append, h2]⟩

theorem prec_nil (a x : Event) : Prec [] a x := by
  intro l1 l2 h
  have hlen := congrArg List.length h
  simp at hlen
  omega

theorem prec_append_one {tr : List Event} {a x : Event} (h : Prec tr a x)
    (e : Event) (he : e = x → a ∈ tr) : Prec (tr ++ [e]) a x := by
  intro l1 l2 hsplit
  rcases split_snoc hsplit with ⟨l3, htr, _⟩ | ⟨hl1, hxe, _⟩
  · exact h l1 l3 htr
  · subst hl1
    exact he hxe.symm

theorem pfx1_nil (x e : Event) : Pfx1 [] x e := by
  intro l1 l2 h
  have hlen := congrArg List.length h
  simp at hlen
  omega

theorem pfx1_append_one {tr : List Event} {x e : Event} (h : Pfx1 tr x e)
    (a : Event) (ha : a = x → cnt e tr = 1) : Pfx1 (tr ++ [a]) x e := by
  intro l1 l2 hsplit
  rcases split_snoc hsplit with ⟨l3, htr, _⟩ | ⟨hl1, hxa, _⟩
  · exact h l1 l3 htr
  · subst hl1
    exact ha hxa.symm

/-- A trace whose only cell is not `x` satisfies `Prec · a x`. -/
theorem prec_single {a x y : Event} (hxy : y ≠ x) : Prec [y] a x := by
  have := @prec_append_one [] a x (prec_nil a x) y (fun h => absurd h hxy)
  simpa using this

/-- A trace whose only cell is not `x` satisfies `Pfx1 · x e`. -/
theorem pfx1_single {x e y : Event} (hxy : y ≠ x) : Pfx1 [y] x e := by
  have := @pfx1_append_one [] x e (pfx1_nil x e) y (fun h => absurd h hxy)
  simpa using this

/-! ### The inductive invariant of the concurrent phase -/

/-- Progress measure of the main thread: how far past each program point
it is.  Used to tie trace contents to control state. -/
def rank (n : Nat) : MainPC → Nat
  | .mReg i => 2 * i
  | .mSpawn i => 2 * i + 1
  | .mBarrier => 2 * n
  | .mAfter => 2 * n + 1
  | .mEgWait => 2 * n + 2
  | .mDone => 2 * n + 3

/-- Inductive invariant of the concurrent phase of `Run`, tying the trace,
the main-thread program counter, the task stages, and the result. -/
structure RunInv (b : bootstrap) (s : St) : Prop where
  pcReg : ∀ i, s.pc = .mReg i → i ≤ b.runners.length
  pcSpawn : ∀ i, s.pc = .mSpawn i → i < b.runners.length
  stageOut : ∀ i, b.runners.length ≤ i → s.stages i = .notSpawned
  stageSpawn : ∀ i, s.stages i ≠ .notSpawned →
    2 * i + 1 < rank b.runners.length s.pc
  memReg : ∀ i, i < b.runners.length → 2 * i < rank b.runners.length s.pc →
    Event.callbackRegistered i ∈ s.trace
  cntBefore : cnt .beforeRunCalled s.trace = if b.beforeRun.isSome then 1 else 0
  cntOnCall : cnt .onRunCalled s.trace =
    if s.onRunDone = true ∧ b.onRun.isSome = true then 1 else 0
  cntSig : ∀ i, cnt (.startSignal i) s.trace =
    if sigPassed (s.stages i) = true then 1 else 0
  afterSig : ∀ i, i < b.runners.length →
    2 * b.runners.length + 1 ≤ rank b.runners.length s.pc →
    sigPassed (s.stages i) = true
  qa : b.beforeRun.isSome = true →
    ∀ i, Prec s.trace .beforeRunCalled (.startTaskSpawned i)
  qb : ∀ i, Prec s.trace (.callbackRegistered i) (.startTaskSpawned i)
  qc : ∀ i, Pfx1 s.trace (.runnerRunCalled i) (.startSignal i)
  qd : ∀ i, i < b.runners.length → Pfx1 s.trace .onRunTaskSpawned (.startSignal i)
  retF : ∀ r, s.ret = some r → s.pc = .mDone
  doneF : s.pc = .mDone → s.waitDone = true ∧ s.onRunDone = true ∧
    (∀ i, i < b.runners.length → s.stages i = .finished) ∧
    s.ret = some (finish s.egErr)

theorem allSignaled_spec {n : Nat} {st : Nat → RStage}
    (h : allSignaled n st = true) : ∀ i, i < n → sigPassed (st i) = true := by
  intro i hi
  have := List.all_eq_true.mp h i (List.mem_range.mpr hi)
  simpa using this

theorem allFinished_spec {n : Nat} {st : Nat → RStage}
    (h : allFinished n st = true) : ∀ i, i < n → st i = .finished := by
  intro i hi
  have := List.all_eq_true.mp h i (List.mem_range.mpr hi)
  simpa using this

/-- The initial state of the concurrent phase satisfies the invariant. -/
theorem inv_init (b : bootstrap) : RunInv b (initSt b) := by
  constructor
  · intro i h
    simp [initSt] at h
    omega
  · intro i h
    simp [initSt] at h
  · intro i _
    simp [initSt]
  · intro i h
    simp [initSt] at h
  · intro i _ h
    simp [initSt, rank] at h
  · by_cases hb : b.beforeRun.isSome = true <;> simp [initSt, hb, cnt]
  · by_cases hb : b.beforeRun.isSome = true <;> simp [initSt, hb, cnt]
  · intro i
    by_cases hb : b.beforeRun.isSome = true <;>
      simp [initSt, hb, cnt, sigPassed]
  · intro i hi h
    simp only [initSt, rank] at h
    omega
  · intro hb i
    simp only [initSt, hb, if_pos]
    exact prec_single (by simp)
  · intro i
    by_cases hb : b.beforeRun.isSome = true <;> simp only [initSt, hb]
    · simp only [if_pos]
      exact prec_single (by simp)
    · simp only [if_neg Bool.false_ne_true, if_false]
      exact prec_nil _ _
  · intro i
    by_cases hb : b.beforeRun.isSome = true <;> simp only [initSt, hb]
    · simp only [if_pos]
      exact pfx1_single (by simp)
    · simp only [if_neg Bool.false_ne_true, if_false]
      exact pfx1_nil _ _
  · intro i _
    by_cases hb : b.beforeRun.isSome = true <;> simp only [initSt, hb]
    · simp only [if_pos]
      exact pfx1_single (by simp)
    · simp only [if_neg Bool.false_ne_true, if_false]
      exact pfx1_nil _ _
  · intro r h
    simp [initSt] at h
  · intro h
    simp [initSt] at h

/-! ### Generic append lemmas for traces -/

theorem cnt_snoc_ne (e x : Event) (tr : List Event) (hx : x ≠ e) :
    cnt e (tr ++ [x]) = cnt e tr := by
  simp [cnt_append, cnt, hx]

theorem cnt_snoc_eq (e : Event) (tr : List Event) :
    cnt e (tr ++ [e]) = cnt e tr + 1 := by
  simp [cnt_append, cnt]

theorem cnt_eq_zero_of_all_ne (e : Event) (l : List Event)
    (h : ∀ x ∈ l, x ≠ e) : cnt e l = 0 := by
  induction l with
  | nil => rfl
  | cons y ys ih =>
      have hy : y ≠ e := h y (List.mem_cons_self y ys)
      simp [cnt, hy]
      exact ih fun x hx => h x (List.mem_cons_of_mem _ hx)

theorem cnt_append_none (e : Event) (tr l : List Event)
    (h : ∀ x ∈ l, x ≠ e) : cnt e (tr ++ l) = cnt e tr := by
  rw [cnt_append, cnt_eq_zero_of_all_ne e l h]
  omega

theorem prec_append_many {tr : List Event} {a x : Event} (h : Prec tr a x)
    (l : List Event) (hne : ∀ e ∈ l, e ≠ x) : Prec (tr ++ l) a x := by
  induction l using List.reverseRecOn with
  | nil => simpa using h
  | append_singleton li e ih =>
      have : tr ++ (li ++ [e]) = (tr ++ li) ++ [e] := by simp
      rw [this]
      refine prec_append_one (ih fun e' he' => hne e' (by simp [he'])) e ?_
      intro heq
      exact absurd heq (hne e (by simp))

theorem pfx1_append_many {tr : List Event} {x e : Event} (h : Pfx1 tr x e)
    (l : List Event) (hne : ∀ a ∈ l, a ≠ x) : Pfx1 (tr ++ l) x e := by
  induction l using List.reverseRecOn with
  | nil => simpa using h
  | append_singleton li a ih =>
      have : tr ++ (li ++ [a]) = (tr ++ li) ++ [a] := by simp
      rw [this]
      refine pfx1_append_one (ih fun a' ha' => hne a' (by simp [ha'])) a ?_
      intro heq
      exact absurd heq (hne a (by simp))

/-! ### Preservation of the invariant -/

theorem inv_mainStep (b : bootstrap) (ie : Bool) (s : St) (h : RunInv b s) :
    RunInv b (mainStep b ie s) := by
  rcases hpc : s.pc with i | i | _ | _ | _ | _
  · -- pc = mReg i
    by_cases hi : i < b.runners.length
    · have hs' : mainStep b ie s =
          { s with pc := .mSpawn i,
                   trace := s.trace ++ [.callbackRegistered i] } := by
        simp [mainStep, hpc, hi]
      rw [hs']
      constructor
      · intro j hj
        simp at hj
      · intro j hj
        simp at hj
        omega
      · intro j hj
        exact h.stageOut j hj
      · intro j hj
        have hold := h.stageSpawn j hj
        rw [hpc] at hold
        simp [rank] at hold ⊢
        omega
      · intro j hj hrank
        simp [rank] at hrank
        rcases Nat.lt_or_ge j i with hji | hji
        · have hmem := h.memReg j hj (by rw [hpc]; simp [rank]; omega)
          exact List.mem_append_left _ hmem
        · have : j = i := by omega
          subst this
          simp
      · rw [cnt_snoc_ne _ _ _ (by simp)]
        exact h.cntBefore
      · rw [cnt_snoc_ne _ _ _ (by simp)]
        exact h.cntOnCall
      · intro j
        rw [cnt_snoc_ne _ _ _ (by simp)]
        exact h.cntSig j
      · intro j hj hrank
        simp [rank] at hrank
        omega
      · intro hb j
        exact prec_append_one (h.qa hb j) _ (fun heq => absurd heq (by simp))
      · intro j
        exact prec_append_one (h.qb j) _ (fun heq => absurd heq (by simp))
      · intro j
        exact pfx1_append_one (h.qc j) _ (fun heq => absurd heq (by simp))
      · intro j hj
        exact pfx1_append_one (h.qd j hj) _ (fun heq => absurd heq (by simp))
      · intro r hr
        have := h.retF r hr
        rw [hpc] at this
        simp at this
      · intro hd
        simp at hd
    · have hs' : mainStep b ie s = { s with pc := .mBarrier } := by
        simp [mainStep, hpc, hi]
      have hin : i = b.runners.length := by
        have := h.pcReg i hpc
        omega
      rw [hs']
      constructor
      · intro j hj
        simp at hj
      · intro j hj
        simp at hj
      · intro j hj
        exact h.stageOut j hj
      · intro j hj
        have hold := h.stageSpawn j hj
        rw [hpc] at hold
        simp [rank] at hold ⊢
        omega
      · intro j hj hrank
        exact h.memReg j hj (by rw [hpc]; simp [rank]; omega)
      · exact h.cntBefore
      · exact h.cntOnCall
      · intro j
        exact h.cntSig j
      · intro j hj hrank
        simp [rank] at hrank
      · intro hb j
        exact h.qa hb j
      · intro j
        exact h.qb j
      · intro j
        exact h.qc j
      · intro j hj
        exact h.qd j hj
      · intro r hr
        have := h.retF r hr
        rw [hpc] at this
        simp at this
      · intro hd
        simp at hd
  · -- pc = mSpawn i
    have hi : i < b.runners.length := h.pcSpawn i hpc
    have hstagei : s.stages i = .notSpawned := by
      by_contra hne
      have := h.stageSpawn i hne
      rw [hpc] at this
      simp [rank] at this
    have hs' : mainStep b ie s =
        { s with pc := .mReg (i + 1),
                 stages := fun j => if j = i then .atLog else s.stages j,
                 trace := s.trace ++ [.startTaskSpawned i] } := by
      simp [mainStep, hpc]
    rw [hs']
    constructor
    · intro j hj
      simp at hj
      omega
    · intro j hj
      simp at hj
    · intro j hj
      have hji : j ≠ i := by omega
      simp only [hji, if_false]
      exact h.stageOut j hj
    · intro j hj
      simp only at hj ⊢
      by_cases hji : j = i
      · subst hji
        simp [rank]
        omega
      · rw [if_neg hji] at hj
        have hold := h.stageSpawn j hj
        rw [hpc] at hold
        simp [rank] at hold ⊢
        omega
    · intro j hj hrank
      simp [rank] at hrank
      have hmem := h.memReg j hj (by rw [hpc]; simp [rank]; omega)
      exact List.mem_append_left _ hmem
    · rw [cnt_snoc_ne _ _ _ (by simp)]
      exact h.cntBefore
    · rw [cnt_snoc_ne _ _ _ (by simp)]
      exact h.cntOnCall
    · intro j
      rw [cnt_snoc_ne _ _ _ (by simp)]
      by_cases hji : j = i
      · subst hji
        have := h.cntSig j
        rw [hstagei] at this
        simp only [if_pos rfl]
        simpa [sigPassed] using this
      · simp only [if_neg hji]
        exact h.cntSig j
    · intro j hj hrank
      simp [rank] at hrank
      omega
    · intro hb j
      refine prec_append_one (h.qa hb j) _ (fun heq => ?_)
      have : 0 < cnt Event.beforeRunCalled s.trace := by
        rw [h.cntBefore, hb]
        simp
      exact cnt_pos_mem _ _ this
    · intro j
      refine prec_append_one (h.qb j) _ (fun heq => ?_)
      have hij : i = j := by
        simpa using heq
      subst hij
      exact h.memReg i hi (by rw [hpc]; simp [rank])
    · intro j
      exact pfx1_append_one (h.qc j) _ (fun heq => absurd heq (by simp))
    · intro j hj
      exact pfx1_append_one (h.qd j hj) _ (fun heq => absurd heq (by simp))
    · intro r hr
      have := h.retF r hr
      rw [hpc] at this
      simp at this
    · intro hd
      simp at hd
  · -- pc = mBarrier
    by_cases hall : allSignaled b.runners.length s.stages = true
    · have hs' : mainStep b ie s = { s with pc := .mAfter } := by
        simp [mainStep, hpc, hall]
      rw [hs']
      constructor
      · intro j hj
        simp at hj
      · intro j hj
        simp at hj
      · intro j hj
        exact h.stageOut j hj
      · intro j hj
        have hold := h.stageSpawn j hj
        rw [hpc] at hold
        simp [rank] at hold ⊢
        omega
      · intro j hj hrank
        exact h.memReg j hj (by rw [hpc]; simp [rank]; omega)
      · exact h.cntBefore
      · exact h.cntOnCall
      · intro j
        exact h.cntSig j
      · intro j hj _
        exact allSignaled_spec hall j hj
      · intro hb j
        exact h.qa hb j
      · intro j
        exact h.qb j
      · intro j
        exact h.qc j
      · intro j hj
        exact h.qd j hj
      · intro r hr
        have := h.retF r hr
        rw [hpc] at this
        simp at this
      · intro hd
        simp at hd
    · have hs' : mainStep b ie s = s := by
        simp [mainStep, hpc, hall]
      rw [hs']
      exact h
  · -- pc = mAfter
    have hs' : mainStep b ie s =
        { s with pc := .mEgWait,
                 trace := s.trace ++ (if ie then [.logInfo "bootstrap started."] else [])
                          ++ [.onRunTaskSpawned] } := by
      simp [mainStep, hpc]
    rw [hs']
    have hL : ∀ e ∈ (if ie then [Event.logInfo "bootstrap started."] else ([] : List Event)),
        ∀ msg, e = Event.logInfo msg → True := by
      intro e _ _ _; trivial
    have hlogmem : ∀ e ∈ (if ie then [Event.logInfo "bootstrap started."] else ([] : List Event)),
        e = Event.logInfo "bootstrap started." := by
      intro e he
      by_cases hie : ie = true <;> simp [hie] at he
      exact he
    constructor
    · intro j hj
      simp at hj
    · intro j hj
      simp at hj
    · intro j hj
      exact h.stageOut j hj
    · intro j hj
      have hold := h.stageSpawn j hj
      rw [hpc] at hold
      simp [rank] at hold ⊢
      omega
    · intro j hj hrank
      have hmem := h.memReg j hj (by rw [hpc]; simp [rank]; omega)
      exact List.mem_append_left _ (List.mem_append_left _ hmem)
    · rw [cnt_snoc_ne _ _ _ (by simp), cnt_append_none]
      · exact h.cntBefore
      · intro x hx
        rw [hlogmem x hx]
        simp
    · rw [cnt_snoc_ne _ _ _ (by simp), cnt_append_none]
      · exact h.cntOnCall
      · intro x hx
        rw [hlogmem x hx]
        simp
    · intro j
      rw [cnt_snoc_ne _ _ _ (by simp), cnt_append_none]
      · exact h.cntSig j
      · intro x hx
        rw [hlogmem x hx]
        simp
    · intro j hj _
      exact h.afterSig j hj (by rw [hpc]; simp [rank])
    · intro hb j
      refine prec_append_one ?_ _ (fun heq => absurd heq (by simp))
      refine prec_append_many (h.qa hb j) _ ?_
      intro e he
      rw [hlogmem e he]
      simp
    · intro j
      refine prec_append_one ?_ _ (fun heq => absurd heq (by simp))
      refine prec_append_many (h.qb j) _ ?_
      intro e he
      rw [hlogmem e he]
      simp
    · intro j
      refine pfx1_append_one ?_ _ (fun heq => absurd heq (by simp))
      refine pfx1_append_many (h.qc j) _ ?_
      intro e he
      rw [hlogmem e he]
      simp
    · intro j hj
      refine pfx1_append_one ?_ _ (fun _ => ?_)
      · refine pfx1_append_many (h.qd j hj) _ ?_
        intro e he
        rw [hlogmem e he]
        simp
      · rw [cnt_append_none]
        · have hsig := h.afterSig j hj (by rw [hpc]; simp [rank])
          have := h.cntSig j
          rw [hsig] at this
          simpa using this
        · intro x hx
          rw [hlogmem x hx]
          simp
    · intro r hr
      have := h.retF r hr
      rw [hpc] at this
      simp at this
    · intro hd
      simp at hd
  · -- pc = mEgWait
    simp only [mainStep, hpc]
    split
    · rename_i hg
      constructor
      · intro j hj
        simp at hj
      · intro j hj
        simp at hj
      · intro j hj
        exact h.stageOut j hj
      · intro j hj
        have hold := h.stageSpawn j hj
        rw [hpc] at hold
        simp [rank] at hold ⊢
        omega
      · intro j hj hrank
        exact h.memReg j hj (by rw [hpc]; simp [rank]; omega)
      · exact h.cntBefore
      · exact h.cntOnCall
      · intro j
        exact h.cntSig j
      · intro j hj _
        exact h.afterSig j hj (by rw [hpc]; simp [rank])
      · intro hb j
        exact h.qa hb j
      · intro j
        exact h.qb j
      · intro j
        exact h.qc j
      · intro j hj
        exact h.qd j hj
      · intro r _
        rfl
      · intro _
        exact ⟨hg.1, hg.2.1, allFinished_spec hg.2.2, rfl⟩
    · exact h
  · -- pc = mDone
    have hs' : mainStep b ie s = s := by
      simp [mainStep, hpc]
    rw [hs']
    exact h

theorem inv_waitStep (b : bootstrap) (wr : Option GoError) (ec : Bool)
    (s : St) (h : RunInv b s) : RunInv b (waitStep wr ec s) := by
  by_cases hg : (s.waitDone = false ∧ (ec = true ∨ s.egErr.isSome = true))
  · have hnd : s.pc ≠ .mDone := by
      intro hd
      have := (h.doneF hd).1
      rw [this] at hg
      simp at hg
    have hs' : waitStep wr ec s =
        { s with waitDone := true, egErr := submit s.egErr wr,
                 trace := s.trace ++ [.gsWaitCalled] } := by
      simp only [waitStep, if_pos hg]
    rw [hs']
    constructor
    · intro j hj
      exact h.pcReg j hj
    · intro j hj
      exact h.pcSpawn j hj
    · intro j hj
      exact h.stageOut j hj
    · intro j hj
      exact h.stageSpawn j hj
    · intro j hj hrank
      exact List.mem_append_left _ (h.memReg j hj hrank)
    · rw [cnt_snoc_ne _ _ _ (by simp)]
      exact h.cntBefore
    · rw [cnt_snoc_ne _ _ _ (by simp)]
      exact h.cntOnCall
    · intro j
      rw [cnt_snoc_ne _ _ _ (by simp)]
      exact h.cntSig j
    · intro j hj hrank
      exact h.afterSig j hj hrank
    · intro hb j
      exact prec_append_one (h.qa hb j) _ (fun heq => absurd heq (by simp))
    · intro j
      exact prec_append_one (h.qb j) _ (fun heq => absurd heq (by simp))
    · intro j
      exact pfx1_append_one (h.qc j) _ (fun heq => absurd heq (by simp))
    · intro j hj
      exact pfx1_append_one (h.qd j hj) _ (fun heq => absurd heq (by simp))
    · intro r hr
      exact absurd (h.retF r hr) hnd
    · intro hd
      exact absurd hd hnd
  · have hs' : waitStep wr ec s = s := by
      simp only [waitStep, if_neg hg]
    rw [hs']
    exact h

theorem inv_onRunStep (b : bootstrap) (s : St) (h : RunInv b s) :
    RunInv b (onRunStep b s) := by
  by_cases hg : ((s.pc = .mEgWait ∨ s.pc = .mDone) ∧ s.onRunDone = false)
  · have hnd : s.pc ≠ .mDone := by
      intro hd
      have := (h.doneF hd).2.1
      rw [this] at hg
      simp at hg
    have hmem : ∀ e ∈ (if b.onRun.isSome then [Event.onRunCalled] else ([] : List Event)),
        e = Event.onRunCalled := by
      intro e he
      by_cases ho : b.onRun.isSome = true <;> simp [ho] at he
      exact he
    have hs' : onRunStep b s =
        { s with onRunDone := true, egErr := submit s.egErr (onRunResult b),
                 trace := s.trace ++ (if b.onRun.isSome then [.onRunCalled] else []) } := by
      simp only [onRunStep, if_pos hg]
    rw [hs']
    constructor
    · intro j hj
      exact h.pcReg j hj
    · intro j hj
      exact h.pcSpawn j hj
    · intro j hj
      exact h.stageOut j hj
    · intro j hj
      exact h.stageSpawn j hj
    · intro j hj hrank
      exact List.mem_append_left _ (h.memReg j hj hrank)
    · rw [cnt_append_none]
      · exact h.cntBefore
      · intro x hx
        rw [hmem x hx]
        simp
    · by_cases ho : b.onRun.isSome = true
      · rw [if_pos ho, cnt_append, cnt_singleton]
        have := h.cntOnCall
        rw [hg.2] at this
        simp at this
        simp [this, ho]
      · rw [if_neg ho]
        simp only [List.append_nil]
        have := h.cntOnCall
        simp only [Bool.not_eq_true] at ho
        simp [ho] at this ⊢
        exact this
    · intro j
      rw [cnt_append_none]
      · exact h.cntSig j
      · intro x hx
        rw [hmem x hx]
        simp
    · intro j hj hrank
      exact h.afterSig j hj hrank
    · intro hb j
      refine prec_append_many (h.qa hb j) _ ?_
      intro e he
      rw [hmem e he]
      simp
    · intro j
      refine prec_append_many (h.qb j) _ ?_
      intro e he
      rw [hmem e he]
      simp
    · intro j
      refine pfx1_append_many (h.qc j) _ ?_
      intro e he
      rw [hmem e he]
      simp
    · intro j hj
      refine pfx1_append_many (h.qd j hj) _ ?_
      intro e he
      rw [hmem e he]
      simp
    · intro r hr
      exact absurd (h.retF r hr) hnd
    · intro hd
      exact absurd hd hnd
  · have hs' : onRunStep b s = s := by
      simp only [onRunStep, if_neg hg]
    rw [hs']
    exact h

theorem inv_runnerStep (b : bootstrap) (ie : Bool) (s : St) (i : Nat)
    (h : RunInv b s) : RunInv b (runnerStep b ie s i) := by
  rcases hstage : s.stages i with _ | _ | _ | _ | _
  · have hs' : runnerStep b ie s i = s := by
      simp [runnerStep, hstage]
    rw [hs']
    exact h
  · -- stage atLog: log "Starting runner", move to atSig
    have hi : i < b.runners.length := by
      by_contra hni
      have := h.stageOut i (by omega)
      rw [hstage] at this
      simp at this
    have hmem : ∀ e ∈ (if ie then [Event.logInfo ("Starting runner: " ++ nameOf b i)]
        else ([] : List Event)), e = Event.logInfo ("Starting runner: " ++ nameOf b i) := by
      intro e he
      by_cases hie : ie = true <;> simp [hie] at he
      exact he
    have hs' : runnerStep b ie s i =
        { s with stages := fun j => if j = i then .atSig else s.stages j,
                 trace := s.trace ++
                   (if ie then [.logInfo ("Starting runner: " ++ nameOf b i)] else []) } := by
      simp [runnerStep, hstage]
    rw [hs']
    constructor
    · intro j hj
      exact h.pcReg j hj
    · intro j hj
      exact h.pcSpawn j hj
    · intro j hj
      have hji : j ≠ i := by omega
      simp only [hji, if_false]
      exact h.stageOut j hj
    · intro j hj
      simp only at hj
      by_cases hji : j = i
      · subst hji
        exact h.stageSpawn j (by rw [hstage]; simp)
      · rw [if_neg hji] at hj
        exact h.stageSpawn j hj
    · intro j hj hrank
      exact List.mem_append_left _ (h.memReg j hj hrank)
    · rw [cnt_append_none]
      · exact h.cntBefore
      · intro x hx
        rw [hmem x hx]
        simp
    · rw [cnt_append_none]
      · exact h.cntOnCall
      · intro x hx
        rw [hmem x hx]
        simp
    · intro j
      rw [cnt_append_none]
      · by_cases hji : j = i
        · subst hji
          have := h.cntSig j
          rw [hstage] at this
          simp only [if_pos rfl]
          simpa [sigPassed] using this
        · simp only [if_neg hji]
          exact h.cntSig j
      · intro x hx
        rw [hmem x hx]
        simp
    · intro j hj hrank
      by_cases hji : j = i
      · subst hji
        have := h.afterSig j hj hrank
        rw [hstage] at this
        simp [sigPassed] at this
      · simp only [if_neg hji]
        exact h.afterSig j hj hrank
    · intro hb j
      refine prec_append_many (h.qa hb j) _ ?_
      intro e he
      rw [hmem e he]
      simp
    · intro j
      refine prec_append_many (h.qb j) _ ?_
      intro e he
      rw [hmem e he]
      simp
    · intro j
      refine pfx1_append_many (h.qc j) _ ?_
      intro e he
      rw [hmem e he]
      simp
    · intro j hj
      refine pfx1_append_many (h.qd j hj) _ ?_
      intro e he
      rw [hmem e he]
      simp
    · intro r hr
      exact h.retF r hr
    · intro hd
      have := (h.doneF hd).2.2.1 i hi
      rw [hstage] at this
      simp at this
  · -- stage atSig: signal the start barrier, move to atRun
    have hi : i < b.runners.length := by
      by_contra hni
      have := h.stageOut i (by omega)
      rw [hstage] at this
      simp at this
    have hs' : runnerStep b ie s i =
        { s with stages := fun j => if j = i then .atRun else s.stages j,
                 trace := s.trace ++ [.startSignal i] } := by
      simp [runnerStep, hstage]
    rw [hs']
    constructor
    · intro j hj
      exact h.pcReg j hj
    · intro j hj
      exact h.pcSpawn j hj
    · intro j hj
      have hji : j ≠ i := by omega
      simp only [hji, if_false]
      exact h.stageOut j hj
    · intro j hj
      simp only at hj
      by_cases hji : j = i
      · subst hji
        exact h.stageSpawn j (by rw [hstage]; simp)
      · rw [if_neg hji] at hj
        exact h.stageSpawn j hj
    · intro j hj hrank
      exact List.mem_append_left _ (h.memReg j hj hrank)
    · rw [cnt_snoc_ne _ _ _ (by simp)]
      exact h.cntBefore
    · rw [cnt_snoc_ne _ _ _ (by simp)]
      exact h.cntOnCall
    · intro j
      by_cases hji : j = i
      · subst hji
        rw [cnt_snoc_eq]
        have := h.cntSig j
        rw [hstage] at this
        simp [sigPassed] at this
        simp [this, sigPassed]
      · rw [cnt_snoc_ne _ _ _ (by simp [Ne.symm hji])]
        simp only [if_neg hji]
        exact h.cntSig j
    · intro j hj hrank
      by_cases hji : j = i
      · subst hji
        simp [sigPassed]
      · simp only [if_neg hji]
        exact h.afterSig j hj hrank
    · intro hb j
      exact prec_append_one (h.qa hb j) _ (fun heq => absurd heq (by simp))
    · intro j
      exact prec_append_one (h.qb j) _ (fun heq => absurd heq (by simp))
    · intro j
      exact pfx1_append_one (h.qc j) _ (fun heq => absurd heq (by simp))
    · intro j hj
      exact pfx1_append_one (h.qd j hj) _ (fun heq => absurd heq (by simp))
    · intro r hr
      exact h.retF r hr
    · intro hd
      have := (h.doneF hd).2.2.1 i hi
      rw [hstage] at this
      simp at this
  · -- stage atRun: call r.Run, submit its wrapped result, finish
    have hi : i < b.runners.length := by
      by_contra hni
      have := h.stageOut i (by omega)
      rw [hstage] at this
      simp at this
    have hs' : runnerStep b ie s i =
        { s with stages := fun j => if j = i then .finished else s.stages j,
                 egErr := submit s.egErr (wrapRun (nameOf b i) (runResOf b i)),
                 trace := s.trace ++ [.runnerRunCalled i] } := by
      simp [runnerStep, hstage]
    rw [hs']
    constructor
    · intro j hj
      exact h.pcReg j hj
    · intro j hj
      exact h.pcSpawn j hj
    · intro j hj
      have hji : j ≠ i := by omega
      simp only [hji, if_false]
      exact h.stageOut j hj
    · intro j hj
      simp only at hj
      by_cases hji : j = i
      · subst hji
        exact h.stageSpawn j (by rw [hstage]; simp)
      · rw [if_neg hji] at hj
        exact h.stageSpawn j hj
    · intro j hj hrank
      exact List.mem_append_left _ (h.memReg j hj hrank)
    · rw [cnt_snoc_ne _ _ _ (by simp)]
      exact h.cntBefore
    · rw [cnt_snoc_ne _ _ _ (by simp)]
      exact h.cntOnCall
    · intro j
      rw [cnt_snoc_ne _ _ _ (by simp)]
      by_cases hji : j = i
      · subst hji
        have := h.cntSig j
        rw [hstage] at this
        simp only [if_pos rfl]
        simpa [sigPassed] using this
      · simp only [if_neg hji]
        exact h.cntSig j
    · intro j hj hrank
      by_cases hji : j = i
      · subst hji
        simp [sigPassed]
      · simp only [if_neg hji]
        exact h.afterSig j hj hrank
    · intro hb j
      exact prec_append_one (h.qa hb j) _ (fun heq => absurd heq (by simp))
    · intro j
      exact prec_append_one (h.qb j) _ (fun heq => absurd heq (by simp))
    · intro j
      refine pfx1_append_one (h.qc j) _ (fun heq => ?_)
      have hij : i = j := by simpa using heq
      subst hij
      have := h.cntSig i
      rw [hstage] at this
      simpa [sigPassed] using this
    · intro j hj
      exact pfx1_append_one (h.qd j hj) _ (fun heq => absurd heq (by simp))
    · intro r hr
      exact h.retF r hr
    · intro hd
      have := (h.doneF hd).2.2.1 i hi
      rw [hstage] at this
      simp at this
  · have hs' : runnerStep b ie s i = s := by
      simp [runnerStep, hstage]
    rw [hs']
    exact h

/-- One scheduled step preserves the invariant. -/
theorem inv_step (b : bootstrap) (wr : Option GoError) (ec ie : Bool)
    (s : St) (c : Nat) (h : RunInv b s) : RunInv b (step b wr ec ie s c) := by
  match c with
  | 0 => exact inv_mainStep b ie s h
  | 1 => exact inv_waitStep b wr ec s h
  | 2 => exact inv_onRunStep b s h
  | (i + 3 : Nat) => exact inv_runnerStep b ie s i h

/-- Any schedule preserves the invariant. -/
theorem inv_runSched (b : bootstrap) (wr : Option GoError) (ec ie : Bool) :
    ∀ (sched : List Nat) (s : St), RunInv b s →
      RunInv b (runSched b wr ec ie sched s) := by
  intro sched
  induction sched with
  | nil => intro s h; exact h
  | cons c cs ih =>
      intro s h
      exact ih _ (inv_step b wr ec ie s c h)

/-! ### Generic scenario reasoning -/

/-- The main thread never touches the errgroup error slot (only `eg.Wait`
reads it). -/
theorem mainStep_egErr (b : bootstrap) (ie : Bool) (s : St) :
    (mainStep b ie s).egErr = s.egErr := by
  rcases hpc : s.pc with i | i | _ | _ | _ | _ <;>
    simp only [mainStep, hpc] <;> try rfl
  · split <;> rfl
  · split <;> rfl
  · split <;> rfl

/-- The main thread never completes the post-start task. -/
theorem mainStep_onRunDone (b : bootstrap) (ie : Bool) (s : St) :
    (mainStep b ie s).onRunDone = s.onRunDone := by
  rcases hpc : s.pc with i | i | _ | _ | _ | _ <;>
    simp only [mainStep, hpc] <;> try rfl
  · split <;> rfl
  · split <;> rfl
  · split <;> rfl

/-- The main thread moves a task stage only from `notSpawned` to `atLog`. -/
theorem mainStep_stages (b : bootstrap) (ie : Bool) (s : St) (j : Nat) :
    (mainStep b ie s).stages j = s.stages j ∨
      (mainStep b ie s).stages j = .atLog := by
  rcases hpc : s.pc with i | i | _ | _ | _ | _ <;>
    simp only [mainStep, hpc]
  · split <;> simp
  · by_cases hji : j = i
    · subst hji
      right
      simp
    · left
      simp [hji]
  · split <;> simp
  · simp
  · split <;> simp
  · simp

/-- A state predicate preserved by every step holds after every schedule. -/
theorem runSched_pres (b : bootstrap) (wr : Option GoError) (ec ie : Bool)
    (P : St → Prop)
    (hstep : ∀ s c, P s → P (step b wr ec ie s c)) :
    ∀ (sched : List Nat) (s : St), P s → P (runSched b wr ec ie sched s) := by
  intro sched
  induction sched with
  | nil => intro s h; exact h
  | cons c cs ih =>
      intro s h
      exact ih _ (hstep s c h)

/-- In the non-degenerate paths (runners present, pre-start hook absent or
successful), `Run` is the small-step machine from the initial state. -/
theorem runExec_concurrent (b : bootstrap) (wr : Option GoError) (ec ie : Bool)
    (sched : List Nat) (hne : b.runners ≠ [])
    (hbr : b.beforeRun = none ∨ b.beforeRun = some none) :
    RunExec b wr ec ie sched = runSched b wr ec ie sched (initSt b) := by
  unfold RunExec
  rw [if_neg (by simpa using hne)]
  rcases hbr with h | h <;> rw [h]

/-- The invariant holds of the final state in the concurrent paths. -/
theorem inv_runExec (b : bootstrap) (wr : Option GoError) (ec ie : Bool)
    (sched : List Nat) (hne : b.runners ≠ [])
    (hbr : b.beforeRun = none ∨ b.beforeRun = some none) :
    RunInv b (RunExec b wr ec ie sched) := by
  rw [runExec_concurrent b wr ec ie sched hne hbr]
  exact inv_runSched b wr ec ie sched (initSt b) (inv_init b)

/-- "nil or a cancellation": the class of task results that make `Run`
succeed. -/
def noc : Option GoError → Prop
  | none => True
  | some e => e.isCanceled = true

theorem noc_submit {a r : Option GoError} (ha : noc a) (hr : noc r) :
    noc (submit a r) := by
  cases a with
  | none => exact hr
  | some e => exact ha

theorem submit_none (a : Option GoError) : submit a none = a := by
  cases a <;> rfl

theorem noc_wrapRun (name : String) {r : Option GoError} (hr : noc r) :
    noc (wrapRun name r) := by
  cases r with
  | none => trivial
  | some e => simpa [wrapRun, noc, GoError.isCanceled] using hr

/-- If every task result is nil or a cancellation, the aggregated errgroup
error stays nil or a cancellation, under every schedule. -/
theorem egErr_noc (b : bootstrap) (wr : Option GoError) (ec ie : Bool)
    (hwr : noc wr)
    (hrun : ∀ i, noc (wrapRun (nameOf b i) (runResOf b i)))
    (hon : noc (onRunResult b)) :
    ∀ (sched : List Nat) (s : St), noc s.egErr →
      noc (runSched b wr ec ie sched s).egErr := by
  refine runSched_pres b wr ec ie (fun s => noc s.egErr) ?_
  intro s c h
  match c with
  | 0 =>
      show noc (mainStep b ie s).egErr
      rw [mainStep_egErr]
      exact h
  | 1 =>
      show noc (waitStep wr ec s).egErr
      unfold waitStep
      split
      · exact noc_submit h hwr
      · exact h
  | 2 =>
      show noc (onRunStep b s).egErr
      unfold onRunStep
      split
      · exact noc_submit h hon
      · exact h
  | (i + 3 : Nat) =>
      show noc (runnerStep b ie s i).egErr
      rcases hstage : s.stages i with _ | _ | _ | _ | _ <;>
        simp only [runnerStep, hstage]
      · exact h
      · exact h
      · exact h
      · exact noc_submit h (hrun i)
      · exact h

/-- If runner `i0` is the only task able to produce a non-nil result `W`
and the parent context is never cancelled, the aggregated error is nil or
`W`, and is exactly `W` once runner `i0`'s start task has finished. -/
theorem egErr_only (b : bootstrap) (wr : Option GoError) (ie : Bool)
    (i0 : Nat) (W : GoError)
    (hW : wrapRun (nameOf b i0) (runResOf b i0) = some W)
    (hother : ∀ j, j ≠ i0 → wrapRun (nameOf b j) (runResOf b j) = none)
    (hon : onRunResult b = none) :
    ∀ (sched : List Nat) (s : St),
      ((s.egErr = none ∨ s.egErr = some W) ∧
        (s.stages i0 = .finished → s.egErr = some W)) →
      (((runSched b wr false ie sched s).egErr = none ∨
          (runSched b wr false ie sched s).egErr = some W) ∧
        ((runSched b wr false ie sched s).stages i0 = .finished →
          (runSched b wr false ie sched s).egErr = some W)) := by
  refine runSched_pres b wr false ie
    (fun s => (s.egErr = none ∨ s.egErr = some W) ∧
      (s.stages i0 = .finished → s.egErr = some W)) ?_
  intro s c h
  match c with
  | 0 =>
      show ((mainStep b ie s).egErr = none ∨ (mainStep b ie s).egErr = some W) ∧
        ((mainStep b ie s).stages i0 = RStage.finished →
          (mainStep b ie s).egErr = some W)
      rw [mainStep_egErr]
      refine ⟨h.1, fun hfin => ?_⟩
      rcases mainStep_stages b ie s i0 with heq | heq
      · exact h.2 (heq ▸ hfin)
      · rw [heq] at hfin
        simp at hfin
  | 1 =>
      show ((waitStep wr false s).egErr = none ∨ (waitStep wr false s).egErr = some W) ∧
        ((waitStep wr false s).stages i0 = RStage.finished →
          (waitStep wr false s).egErr = some W)
      unfold waitStep
      split
      · rename_i hg
        have hW' : s.egErr = some W := by
          rcases h.1 with hnone | hsome
          · rw [hnone] at hg
            simp at hg
          · exact hsome
        simp only [hW']
        exact ⟨Or.inr rfl, fun _ => rfl⟩
      · exact h
  | 2 =>
      show ((onRunStep b s).egErr = none ∨ (onRunStep b s).egErr = some W) ∧
        ((onRunStep b s).stages i0 = RStage.finished →
          (onRunStep b s).egErr = some W)
      unfold onRunStep
      split
      · simp only [hon, submit_none]
        exact ⟨h.1, fun hfin => h.2 hfin⟩
      · exact h
  | (j + 3 : Nat) =>
      show ((runnerStep b ie s j).egErr = none ∨ (runnerStep b ie s j).egErr = some W) ∧
        ((runnerStep b ie s j).stages i0 = RStage.finished →
          (runnerStep b ie s j).egErr = some W)
      rcases hstage : s.stages j with _ | _ | _ | _ | _ <;>
        simp only [runnerStep, hstage]
      · exact h
      · refine ⟨h.1, fun hfin => ?_⟩
        by_cases hij : i0 = j
        · rw [if_pos hij] at hfin
          simp at hfin
        · rw [if_neg hij] at hfin
          exact h.2 hfin
      · refine ⟨h.1, fun hfin => ?_⟩
        by_cases hij : i0 = j
        · rw [if_pos hij] at hfin
          simp at hfin
        · rw [if_neg hij] at hfin
          exact h.2 hfin
      · by_cases hij : j = i0
        · have hsub : submit s.egErr (wrapRun (nameOf b j) (runResOf b j)) = some W := by
            rw [hij, hW]
            rcases h.1 with hnone | hsome
            · rw [hnone]
              rfl
            · rw [hsome]
              rfl
          simp [hsub]
        · simp only [hother j hij, submit_none]
          refine ⟨h.1, fun hfin => ?_⟩
          rw [if_neg (fun hh => hij hh.symm)] at hfin
          exact h.2 hfin
      · exact h

/-- If the post-start hook is the only task able to produce a non-nil
result `ON` and the parent context is never cancelled, the aggregated
error is nil or `ON`, and is exactly `ON` once the post-start task has
completed. -/
theorem egErr_onRun (b : bootstrap) (wr : Option GoError) (ie : Bool)
    (ON : GoError)
    (hall : ∀ j, wrapRun (nameOf b j) (runResOf b j) = none)
    (hON : onRunResult b = some ON) :
    ∀ (sched : List Nat) (s : St),
      ((s.egErr = none ∨ s.egErr = some ON) ∧
        (s.onRunDone = true → s.egErr = some ON)) →
      (((runSched b wr false ie sched s).egErr = none ∨
          (runSched b wr false ie sched s).egErr = some ON) ∧
        ((runSched b wr false ie sched s).onRunDone = true →
          (runSched b wr false ie sched s).egErr = some ON)) := by
  refine runSched_pres b wr false ie
    (fun s => (s.egErr = none ∨ s.egErr = some ON) ∧
      (s.onRunDone = true → s.egErr = some ON)) ?_
  intro s c h
  match c with
  | 0 =>
      show ((mainStep b ie s).egErr = none ∨ (mainStep b ie s).egErr = some ON) ∧
        ((mainStep b ie s).onRunDone = true → (mainStep b ie s).egErr = some ON)
      rw [mainStep_egErr, mainStep_onRunDone]
      exact h
  | 1 =>
      show ((waitStep wr false s).egErr = none ∨ (waitStep wr false s).egErr = some ON) ∧
        ((waitStep wr false s).onRunDone = true → (waitStep wr false s).egErr = some ON)
      unfold waitStep
      split
      · rename_i hg
        have hON' : s.egErr = some ON := by
          rcases h.1 with hnone | hsome
          · rw [hnone] at hg
            simp at hg
          · exact hsome
        simp only [hON']
        exact ⟨Or.inr rfl, fun _ => rfl⟩
      · exact h
  | 2 =>
      show ((onRunStep b s).egErr = none ∨ (onRunStep b s).egErr = some ON) ∧
        ((onRunStep b s).onRunDone = true → (onRunStep b s).egErr = some ON)
      unfold onRunStep
      split
      · have hsub : submit s.egErr (onRunResult b) = some ON := by
          rw [hON]
          rcases h.1 with hnone | hsome
          · rw [hnone]
            rfl
          · rw [hsome]
            rfl
        simp [hsub]
      · exact h
  | (j + 3 : Nat) =>
      show ((runnerStep b ie s j).egErr = none ∨ (runnerStep b ie s j).egErr = some ON) ∧
        ((runnerStep b ie s j).onRunDone = true → (runnerStep b ie s j).egErr = some ON)
      rcases hstage : s.stages j with _ | _ | _ | _ | _ <;>
        simp only [runnerStep, hstage]
      · exact h
      · exact h
      · exact h
      · simp only [hall j, submit_none]
        exact h
      · exact h

/-! ### Completion and aggregation helpers -/

theorem finish_noc {o : Option GoError} (h : noc o) : finish o = none := by
  cases o with
  | none => rfl
  | some e =>
      have he : e.isCanceled = true := h
      simp [finish, he]

theorem runResOf_none (b : bootstrap)
    (h : ∀ rn ∈ b.runners, rn.runResult = none) : ∀ i, runResOf b i = none := by
  intro i
  unfold runResOf
  cases hget : b.runners.get? i with
  | none => rfl
  | some rn =>
      simp
      exact h rn (List.get?_mem hget)

/-- Once `Run` has returned from the concurrent phase, the main thread is
done, all tasks have completed, and the return value is `finish` of the
aggregated error. -/
theorem run_completed (b : bootstrap) (wr : Option GoError) (ec ie : Bool)
    (sched : List Nat) (r : Option GoError) (hne : b.runners ≠ [])
    (hbr : b.beforeRun = none ∨ b.beforeRun = some none)
    (hret : (RunExec b wr ec ie sched).ret = some r) :
    (RunExec b wr ec ie sched).pc = .mDone ∧
    (RunExec b wr ec ie sched).waitDone = true ∧
    (RunExec b wr ec ie sched).onRunDone = true ∧
    (∀ i, i < b.runners.length → (RunExec b wr ec ie sched).stages i = .finished) ∧
    r = finish (RunExec b wr ec ie sched).egErr := by
  have hInv := inv_runExec b wr ec ie sched hne hbr
  have hpc := hInv.retF r hret
  have hd := hInv.doneF hpc
  refine ⟨hpc, hd.1, hd.2.1, hd.2.2.1, ?_⟩
  have hval := hd.2.2.2
  rw [hret] at hval
  exact Option.some_injective _ hval

/-- If every concurrent task can only produce a nil-or-cancellation
result, a completed `Run` returns nil. -/
theorem ret_none_of_noc (b : bootstrap) (wr : Option GoError) (ec ie : Bool)
    (sched : List Nat) (r : Option GoError)
    (hbr : b.beforeRun = none ∨ b.beforeRun = some none)
    (hwr : noc wr)
    (hrun : ∀ rn ∈ b.runners, rn.runResult = none)
    (hon : noc (onRunResult b))
    (hret : (RunExec b wr ec ie sched).ret = some r) : r = none := by
  by_cases hemp : b.runners.isEmpty = true
  · unfold RunExec at hret
    rw [if_pos hemp] at hret
    exact (Option.some_injective _ hret).symm
  · have hne : b.runners ≠ [] := by
      simpa using hemp
    have hcomp := run_completed b wr ec ie sched r hne hbr hret
    have hnoc : noc (RunExec b wr ec ie sched).egErr := by
      rw [runExec_concurrent b wr ec ie sched hne hbr]
      refine egErr_noc b wr ec ie hwr ?_ hon sched (initSt b) (by trivial)
      intro i
      rw [runResOf_none b hrun i]
      trivial
    rw [hcomp.2.2.2.2]
    exact finish_noc hnoc

/-! ### Claim theorems -/

/-- C8: for an orchestrator with an empty runner set, `Run` returns nil
and its only observable effect is exactly one error-severity log line
saying "no runners, abort." (the source message carries a final period). -/
theorem c8_empty_runner_set (b : bootstrap) (wr : Option GoError) (ec ie : Bool)
    (sched : List Nat) (hemp : b.runners = []) :
    (RunExec b wr ec ie sched).ret = some none ∧
    (RunExec b wr ec ie sched).trace = [.logError "no runners, abort."] := by
  unfold RunExec
  rw [hemp]
  exact ⟨rfl, rfl⟩

/-- Witness for C8: the empty orchestrator under the empty schedule. -/
theorem c8_empty_runner_set_witness :
    exBootEmpty.runners = [] ∧
    (RunExec exBootEmpty none false true []).ret = some none :=
  ⟨rfl, (c8_empty_runner_set exBootEmpty none false true [] rfl).1⟩

/-- C10: with an empty runner set `Run` returns before the pre-start hook
check: even with a pre-start hook set, the hook is never invoked, the
controller's `Wait` is never called, and no shutdown callback is
registered — the error log line is the only effect. -/
theorem c10_empty_precedes_prestart (b : bootstrap) (wr : Option GoError)
    (ec ie : Bool) (sched : List Nat) (res : Option GoError)
    (hemp : b.runners = []) (_hbset : b.beforeRun = some res) :
    RunExec b wr ec ie sched =
      { pc := .mDone, stages := fun _ => .notSpawned, waitDone := false,
        onRunDone := false, egErr := none,
        trace := [.logError "no runners, abort."], ret := some none } ∧
    Event.beforeRunCalled ∉ (RunExec b wr ec ie sched).trace ∧
    Event.gsWaitCalled ∉ (RunExec b wr ec ie sched).trace ∧
    (∀ j, Event.callbackRegistered j ∉ (RunExec b wr ec ie sched).trace) := by
  have hs : RunExec b wr ec ie sched =
      { pc := .mDone, stages := fun _ => .notSpawned, waitDone := false,
        onRunDone := false, egErr := none,
        trace := [.logError "no runners, abort."], ret := some none } := by
    unfold RunExec
    rw [hemp]
    rfl
  refine ⟨hs, ?_, ?_, ?_⟩
  · rw [hs]
    simp
  · rw [hs]
    simp
  · intro j
    rw [hs]
    simp

/-- Witness for C10: empty runner set with a pre-start hook set. -/
theorem c10_empty_precedes_prestart_witness :
    exBootEmptyHook.runners = [] ∧ exBootEmptyHook.beforeRun = some none ∧
    Event.beforeRunCalled ∉ (RunExec exBootEmptyHook none false true []).trace :=
  ⟨rfl, rfl,
    (c10_empty_precedes_prestart exBootEmptyHook none false true [] none rfl rfl).2.1⟩

/-- C2: a failing pre-start hook makes `Run` return exactly that error,
unwrapped; the trace holds only the hook call, so no runner start task is
spawned, no runner's `Run` is called, and no shutdown callback is
registered (hence no `Stop` can ever be invoked). -/
theorem c2_prestart_gate (b : bootstrap) (e : GoError) (wr : Option GoError)
    (ec ie : Bool) (sched : List Nat) (hne : b.runners ≠ [])
    (hbr : b.beforeRun = some (some e)) :
    (RunExec b wr ec ie sched).ret = some (some e) ∧
    (RunExec b wr ec ie sched).trace = [.beforeRunCalled] := by
  have hs : RunExec b wr ec ie sched =
      { pc := .mDone, stages := fun _ => .notSpawned, waitDone := false,
        onRunDone := false, egErr := none, trace := [.beforeRunCalled],
        ret := some (some e) } := by
    unfold RunExec
    rw [if_neg (by simpa using hne), hbr]
  rw [hs]
  exact ⟨rfl, rfl⟩

/-- Witness for C2: a one-runner orchestrator with a failing pre-start
hook. -/
theorem c2_prestart_gate_witness :
    exBootPreFail.runners ≠ [] ∧
    (RunExec exBootPreFail none false true exSched).ret =
      some (some (.base "prefail")) :=
  ⟨by simp [exBootPreFail],
    (c2_prestart_gate exBootPreFail (.base "prefail") none false true exSched
      (by simp [exBootPreFail]) rfl).1⟩

/-- C9: `WithBeforeRun nil` and `WithOnRun nil` overwrite a previously
configured hook with nil (no nil check), unlike `WithShutdown nil`, which
is a no-op. -/
theorem c9_nil_hook_overwrites :
    (∀ (b : bootstrap) (h : Option GoError),
      (WithBeforeRun none { b with beforeRun := some h }).beforeRun = none ∧
      (WithOnRun none { b with onRun := some h }).onRun = none) ∧
    (∀ b : bootstrap, WithShutdown none b = b) :=
  ⟨fun _ _ => ⟨rfl, rfl⟩, fun _ => rfl⟩

theorem newOpts_gs_isSome : ∀ (opts : List OptionSpec) (b : bootstrap),
    b.gs.isSome = true →
    ((opts.map OptionSpec.apply).foldl (fun b opt => opt b) b).gs.isSome = true := by
  intro opts
  induction opts with
  | nil =>
      intro b h
      simpa using h
  | cons o os ih =>
      intro b h
      simp only [List.map_cons, List.foldl_cons]
      apply ih
      rcases o with c | f | f | rs
      · rcases c with _ | c
        · simpa [OptionSpec.apply, WithShutdown] using h
        · simp [OptionSpec.apply, WithShutdown]
      · simpa [OptionSpec.apply, WithBeforeRun] using h
      · simpa [OptionSpec.apply, WithOnRun] using h
      · simpa [OptionSpec.apply, WithRunners] using h

/-- C6: after `New` with any sequence of exported configuration functions
the controller field is non-nil; the default graceful controller with a
one-second timeout is what `New` installs before applying options;
`WithShutdown nil` is a no-op and `WithShutdown (some c)` overwrites. -/
theorem c6_controller_never_nil :
    (∀ opts : List OptionSpec,
      (New (opts.map OptionSpec.apply)).gs.isSome = true) ∧
    (New []).gs = some defaultController ∧
    (∀ b : bootstrap, WithShutdown none b = b) ∧
    (∀ (b : bootstrap) (c : ShutdownController),
      (WithShutdown (some c) b).gs = some c) := by
  refine ⟨?_, rfl, fun _ => rfl, fun _ _ => rfl⟩
  intro opts
  exact newOpts_gs_isSome opts _ rfl

/-- C1: when the aggregated task error of a completed `Run` is non-nil,
`Run` wraps it with "bootstrap run err" and returns it, unless the error
is simply a cancellation of the scope, in which case `Run` returns nil;
in particular, when every runner blocks until cancellation and returns
nil and the input context is cancelled externally (so the controller's
`Wait` returns the cancellation), `Run` returns nil under every
schedule. -/
theorem c1_aggregate_error_wrapping (b : bootstrap) (wr : Option GoError)
    (ec ie : Bool) (sched : List Nat) (r : Option GoError)
    (hret : (RunExec b wr ec ie sched).ret = some r) :
    (∀ e, (RunExec b wr ec ie sched).egErr = some e →
      (e.isCanceled = false → r = some (.withMessage "bootstrap run err" e)) ∧
      (e.isCanceled = true → r = none)) ∧
    ((b.beforeRun = none ∨ b.beforeRun = some none) →
      (∀ rn ∈ b.runners, rn.runResult = none) →
      wr = some .canceled → noc (onRunResult b) → r = none) := by
  constructor
  · intro e he
    by_cases hemp : b.runners.isEmpty = true
    · unfold RunExec at he
      rw [if_pos hemp] at he
      simp at he
    · have hne : b.runners ≠ [] := by simpa using hemp
      rcases hbe : b.beforeRun with _ | hoo
      · have hcomp := run_completed b wr ec ie sched r hne (Or.inl hbe) hret
        have hfin := hcomp.2.2.2.2
        rw [he] at hfin
        constructor
        · intro hc
          rw [hfin]
          simp [finish, hc]
        · intro hc
          rw [hfin]
          simp [finish, hc]
      · rcases hoo with _ | e0
        · have hcomp := run_completed b wr ec ie sched r hne (Or.inr hbe) hret
          have hfin := hcomp.2.2.2.2
          rw [he] at hfin
          constructor
          · intro hc
            rw [hfin]
            simp [finish, hc]
          · intro hc
            rw [hfin]
            simp [finish, hc]
        · unfold RunExec at he
          rw [if_neg (by simpa using hemp), hbe] at he
          simp at he
  · intro hbr hrun hwrc hon
    refine ret_none_of_noc b wr ec ie sched r hbr ?_ hrun hon hret
    rw [hwrc]
    exact rfl

/-- Witness for C1: the clean external-cancellation scenario. -/
theorem c1_aggregate_error_wrapping_witness :
    (RunExec exBootOk (some GoError.canceled) true true exSched).ret = some none ∧
    (none : Option GoError) = none :=
  ⟨rfl,
    (c1_aggregate_error_wrapping exBootOk (some .canceled) true true exSched none
      rfl).2 (Or.inr rfl) (by decide) rfl (by trivial)⟩

/-- C3: in every execution of `Run` with a non-empty runner set, under
every schedule: the pre-start hook (when set) is called before any start
task is spawned; each runner's shutdown callback is registered before its
start task is spawned; each runner signals the start barrier exactly once
before its `Run` is called; and by the time the post-start task is
spawned, every runner has signaled the barrier exactly once. -/
theorem c3_startup_ordering (b : bootstrap) (wr : Option GoError) (ec ie : Bool)
    (sched : List Nat) (hne : b.runners ≠ []) :
    (b.beforeRun.isSome = true →
      ∀ i, Prec (RunExec b wr ec ie sched).trace .beforeRunCalled
        (.startTaskSpawned i)) ∧
    (∀ i, Prec (RunExec b wr ec ie sched).trace (.callbackRegistered i)
      (.startTaskSpawned i)) ∧
    (∀ i, Pfx1 (RunExec b wr ec ie sched).trace (.runnerRunCalled i)
      (.startSignal i)) ∧
    (∀ i, i < b.runners.length →
      Pfx1 (RunExec b wr ec ie sched).trace .onRunTaskSpawned (.startSignal i)) := by
  rcases hbe : b.beforeRun with _ | hoo
  · have hInv := inv_runExec b wr ec ie sched hne (Or.inl hbe)
    refine ⟨fun hb i => ?_, hInv.qb, hInv.qc, hInv.qd⟩
    simp at hb
  · rcases hoo with _ | e0
    · have hInv := inv_runExec b wr ec ie sched hne (Or.inr hbe)
      exact ⟨fun hb i => hInv.qa (by simp [hbe]) i, hInv.qb, hInv.qc, hInv.qd⟩
    · have hs : (RunExec b wr ec ie sched).trace = [.beforeRunCalled] := by
        unfold RunExec
        rw [if_neg (by simpa using hne), hbe]
      rw [hs]
      exact ⟨fun _ i => prec_single (by simp), fun i => prec_single (by simp),
        fun i => pfx1_single (by simp), fun i _ => pfx1_single (by simp)⟩

/-- Witness for C3: the clean one-runner scenario. -/
theorem c3_startup_ordering_witness :
    exBootOk.runners ≠ [] ∧ exBootOk.beforeRun.isSome = true ∧
    Prec (RunExec exBootOk (some GoError.canceled) true true exSched).trace
      .beforeRunCalled (.startTaskSpawned 0) :=
  ⟨by simp [exBootOk], rfl,
    (c3_startup_ordering exBootOk (some .canceled) true true exSched
      (by simp [exBootOk])).1 rfl 0⟩

/-- C4: when runner `i0`'s `Run` returns a non-nil, non-cancellation
error and every other task yields nil (the parent context is not
externally cancelled, so the controller's `Wait` can only return after
the scope has an error, by which time the slot is taken), the completed
`Run` returns that error wrapped as "starting <name> failed" and then
"bootstrap run err"; both hooks still execute exactly once, and every
runner's shutdown callback is still registered (so the controller stops
every runner). -/
theorem c4_runner_start_failure (b : bootstrap) (wr : Option GoError)
    (ie : Bool) (sched : List Nat) (i0 : Nat) (e : GoError)
    (r : Option GoError)
    (hi0 : i0 < b.runners.length)
    (hbr : b.beforeRun = some none) (hor : b.onRun = some none)
    (he : runResOf b i0 = some e) (hec : e.isCanceled = false)
    (hother : ∀ j, j ≠ i0 → runResOf b j = none)
    (hret : (RunExec b wr false ie sched).ret = some r) :
    r = some (.withMessage "bootstrap run err"
        (.withMessage ("starting " ++ nameOf b i0 ++ " failed") e)) ∧
    cnt .beforeRunCalled (RunExec b wr false ie sched).trace = 1 ∧
    cnt .onRunCalled (RunExec b wr false ie sched).trace = 1 ∧
    (∀ j, j < b.runners.length →
      Event.callbackRegistered j ∈ (RunExec b wr false ie sched).trace) := by
  have hne : b.runners ≠ [] := by
    intro hh
    rw [hh] at hi0
    simp at hi0
  have hbr' : b.beforeRun = none ∨ b.beforeRun = some none := Or.inr hbr
  have hInv := inv_runExec b wr false ie sched hne hbr'
  have hcomp := run_completed b wr false ie sched r hne hbr' hret
  have hW : wrapRun (nameOf b i0) (runResOf b i0) =
      some (.withMessage ("starting " ++ nameOf b i0 ++ " failed") e) := by
    rw [he]
    rfl
  have hother' : ∀ j, j ≠ i0 → wrapRun (nameOf b j) (runResOf b j) = none := by
    intro j hj
    rw [hother j hj]
    rfl
  have hon : onRunResult b = none := by
    unfold onRunResult
    rw [hor]
  have hsc := egErr_only b wr ie i0 _ hW hother' hon sched (initSt b)
    ⟨Or.inl rfl, by intro hfin; simp [initSt] at hfin⟩
  rw [← runExec_concurrent b wr false ie sched hne hbr'] at hsc
  have hegErr := hsc.2 (hcomp.2.2.2.1 i0 hi0)
  refine ⟨?_, ?_, ?_, ?_⟩
  · rw [hcomp.2.2.2.2, hegErr]
    simp [finish, GoError.isCanceled, hec]
  · rw [hInv.cntBefore]
    simp [hbr]
  · rw [hInv.cntOnCall]
    simp [hor, hcomp.2.2.1]
  · intro j hj
    refine hInv.memReg j hj ?_
    rw [hcomp.1]
    simp [rank]
    omega

/-- Witness for C4: the one-runner immediate-failure scenario. -/
theorem c4_runner_start_failure_witness :
    (RunExec exBootRunFail (some GoError.canceled) false true exSched).ret =
      some (some (GoError.withMessage "bootstrap run err"
        (GoError.withMessage "starting r0 failed" (GoError.base "boom")))) ∧
    some (GoError.withMessage "bootstrap run err"
        (GoError.withMessage "starting r0 failed" (GoError.base "boom"))) =
      some (GoError.withMessage "bootstrap run err"
        (GoError.withMessage ("starting " ++ nameOf exBootRunFail 0 ++ " failed")
          (GoError.base "boom"))) :=
  ⟨rfl,
    (c4_runner_start_failure exBootRunFail (some .canceled) true exSched 0
      (.base "boom")
      (some (GoError.withMessage "bootstrap run err"
        (GoError.withMessage "starting r0 failed" (GoError.base "boom"))))
      (by decide) rfl rfl rfl rfl
      (by
        intro j hj
        cases j with
        | zero => exact absurd rfl hj
        | succ k => rfl)
      rfl).1⟩

/-- C7: when the post-start hook returns a non-nil, non-cancellation
error and every runner returns nil (the parent context is not externally
cancelled), the completed `Run` returns the error wrapped as "onRun err"
and then "bootstrap run err", and every runner's shutdown callback was
registered (so every runner still receives a stop invocation via the
controller); when no post-start hook is set, the post-start task
contributes a nil result. -/
theorem c7_onrun_failure :
    (∀ (b : bootstrap) (wr : Option GoError) (ie : Bool) (sched : List Nat)
      (e : GoError) (r : Option GoError),
      b.runners ≠ [] → (b.beforeRun = none ∨ b.beforeRun = some none) →
      b.onRun = some (some e) → e.isCanceled = false →
      (∀ rn ∈ b.runners, rn.runResult = none) →
      (RunExec b wr false ie sched).ret = some r →
      r = some (.withMessage "bootstrap run err" (.withMessage "onRun err" e)) ∧
      (∀ j, j < b.runners.length →
        Event.callbackRegistered j ∈ (RunExec b wr false ie sched).trace)) ∧
    (∀ b : bootstrap, b.onRun = none → onRunResult b = none) := by
  constructor
  · intro b wr ie sched e r hne hbr hor hec hrun hret
    have hInv := inv_runExec b wr false ie sched hne hbr
    have hcomp := run_completed b wr false ie sched r hne hbr hret
    have hON : onRunResult b = some (.withMessage "onRun err" e) := by
      unfold onRunResult
      rw [hor]
    have hall : ∀ j, wrapRun (nameOf b j) (runResOf b j) = none := by
      intro j
      rw [runResOf_none b hrun j]
      rfl
    have hsc := egErr_onRun b wr ie _ hall hON sched (initSt b)
      ⟨Or.inl rfl, by intro hd; simp [initSt] at hd⟩
    rw [← runExec_concurrent b wr false ie sched hne hbr] at hsc
    have hegErr := hsc.2 hcomp.2.2.1
    refine ⟨?_, ?_⟩
    · rw [hcomp.2.2.2.2, hegErr]
      simp [finish, GoError.isCanceled, hec]
    · intro j hj
      refine hInv.memReg j hj ?_
      rw [hcomp.1]
      simp [rank]
      omega
  · intro b h
    unfold onRunResult
    rw [h]

/-- Witness for C7: the one-runner failing-post-start-hook scenario. -/
theorem c7_onrun_failure_witness :
    (RunExec exBootHookFail (some GoError.canceled) false true exSchedHook).ret =
      some (some (GoError.withMessage "bootstrap run err"
        (GoError.withMessage "onRun err" (GoError.base "hookfail")))) ∧
    some (GoError.withMessage "bootstrap run err"
        (GoError.withMessage "onRun err" (GoError.base "hookfail"))) =
      some (GoError.withMessage "bootstrap run err"
        (GoError.withMessage "onRun err" (GoError.base "hookfail"))) :=
  ⟨rfl,
    (c7_onrun_failure.1 exBootHookFail (some .canceled) true exSchedHook
      (.base "hookfail")
      (some (GoError.withMessage "bootstrap run err"
        (GoError.withMessage "onRun err" (GoError.base "hookfail"))))
      (by simp [exBootHookFail]) (Or.inr rfl) rfl rfl (by decide) rfl).1⟩

theorem onRunResult_congr {b b' : bootstrap} (h : b.onRun = b'.onRun) :
    onRunResult b = onRunResult b' := by
  unfold onRunResult
  rw [h]

theorem step_congr (b b' : bootstrap) (wr : Option GoError) (ec ie : Bool)
    (hlen : b.runners.length = b'.runners.length)
    (hon : b.onRun = b'.onRun)
    (hname : ∀ i, nameOf b i = nameOf b' i)
    (hres : ∀ i, runResOf b i = runResOf b' i) :
    ∀ (s : St) (c : Nat), step b wr ec ie s c = step b' wr ec ie s c := by
  intro s c
  match c with
  | 0 =>
      show mainStep b ie s = mainStep b' ie s
      unfold mainStep
      rw [hlen]
  | 1 => rfl
  | 2 =>
      show onRunStep b s = onRunStep b' s
      unfold onRunStep
      rw [hon, onRunResult_congr hon]
  | (j + 3 : Nat) =>
      show runnerStep b ie s j = runnerStep b' ie s j
      unfold runnerStep
      rw [hname j, hres j]

theorem runSched_congr (b b' : bootstrap) (wr : Option GoError) (ec ie : Bool)
    (hlen : b.runners.length = b'.runners.length)
    (hon : b.onRun = b'.onRun)
    (hname : ∀ i, nameOf b i = nameOf b' i)
    (hres : ∀ i, runResOf b i = runResOf b' i) :
    ∀ (sched : List Nat) (s : St),
      runSched b wr ec ie sched s = runSched b' wr ec ie sched s := by
  intro sched
  induction sched with
  | nil => intro s; rfl
  | cons c cs ih =>
      intro s
      show runSched b wr ec ie cs (step b wr ec ie s c) = _
      rw [step_congr b b' wr ec ie hlen hon hname hres s c]
      exact ih _

/-- `Run` never reads any runner's `Stop` result: two orchestrators that
agree on everything `Run` consumes (hooks, runner count, runner names,
runner `Run` results) behave identically, whatever their `Stop` results. -/
theorem runExec_stop_independent (b b' : bootstrap) (wr : Option GoError)
    (ec ie : Bool) (sched : List Nat)
    (hbe : b.beforeRun = b'.beforeRun) (hon : b.onRun = b'.onRun)
    (hlen : b.runners.length = b'.runners.length)
    (hname : ∀ i, nameOf b i = nameOf b' i)
    (hres : ∀ i, runResOf b i = runResOf b' i) :
    RunExec b wr ec ie sched = RunExec b' wr ec ie sched := by
  have hemp : b.runners.isEmpty = b'.runners.isEmpty := by
    rcases hl : b.runners with _ | ⟨x, xs⟩ <;> rcases hl' : b'.runners with _ | ⟨y, ys⟩ <;>
      rw [hl, hl'] at hlen <;> simp at hlen ⊢
  have hinit : initSt b = initSt b' := by
    unfold initSt
    rw [hbe]
  unfold RunExec
  rw [hemp, hbe, hinit, runSched_congr b b' wr ec ie hlen hon hname hres sched]

/-- C5: a failing `Stop` makes the registered shutdown callback return
the error wrapped as "stopping <name> failed"; that result flows to the
Shutdown Controller's error handler, never into `Run`'s aggregation —
`Run` is entirely independent of `Stop` results — and in the clean
external-cancellation scenario `Run` still returns nil even though the
runner's `Stop` fails. -/
theorem c5_stop_failure :
    (∀ (ie : Bool) (rn : RunnerSpec) (reason : String) (e : GoError),
      rn.stopResult = some e →
      (shutdownCallback ie rn reason).1 =
        some (.withMessage ("stopping " ++ rn.name ++ " failed") e)) ∧
    (∀ (b b' : bootstrap) (wr : Option GoError) (ec ie : Bool) (sched : List Nat),
      b.beforeRun = b'.beforeRun → b.onRun = b'.onRun →
      b.runners.length = b'.runners.length →
      (∀ i, nameOf b i = nameOf b' i) → (∀ i, runResOf b i = runResOf b' i) →
      RunExec b wr ec ie sched = RunExec b' wr ec ie sched) ∧
    (∀ (b : bootstrap) (ec ie : Bool) (sched : List Nat) (r : Option GoError),
      (b.beforeRun = none ∨ b.beforeRun = some none) →
      (∀ rn ∈ b.runners, rn.runResult = none) →
      noc (onRunResult b) →
      (RunExec b (some .canceled) ec ie sched).ret = some r → r = none) := by
  refine ⟨?_, ?_, ?_⟩
  · intro ie rn reason e h
    simp [shutdownCallback, h]
  · intro b b' wr ec ie sched hbe hon hlen hname hres
    exact runExec_stop_independent b b' wr ec ie sched hbe hon hlen hname hres
  · intro b ec ie sched r hbr hrun hon hret
    exact ret_none_of_noc b (some .canceled) ec ie sched r hbr rfl hrun hon hret

/-- Witness for C5: a runner whose `Stop` fails; the callback wraps the
failure, and `Run` still returns nil under external cancellation. -/
theorem c5_stop_failure_witness :
    (shutdownCallback true exRunnerStopFail "signal").1 =
      some (.withMessage ("stopping " ++ exRunnerStopFail.name ++ " failed")
        (.base "stopboom")) ∧
    (RunExec exBootStopFail (some GoError.canceled) true true exSched).ret =
      some none ∧
    (none : Option GoError) = none :=
  ⟨c5_stop_failure.1 true exRunnerStopFail "signal" (.base "stopboom") rfl,
    rfl,
    c5_stop_failure.2.2 exBootStopFail true true exSched none (Or.inr rfl)
      (by decide) (by trivial) rfl⟩
